import Mathlib

/-!
Input handling, frame pacing and model loading of `mesh_viewer.c`.

A shallow embedding of the state-changing parts of `mesh_viewer.c`.

Conventions of the embedding:

* C `int` variables are mathematical integers (`Int`); the C remainder
  operator `%` is `Int.tmod` (truncation towards zero). The only `int`
  variables that grow are `last` and `lastcount`, by one per motion event of
  a drag, so the embedding describes the runs in which no `int` overflows
  (fewer than 2^31 motion events within one drag).
* `float`/`double` values of the mouse code are kept abstract: the type `F`
  and its operations are fields of `Ext`, so every theorem holds for any
  interpretation of the floating-point operations.
* Functions and constants that `mesh_viewer.c` uses but that live in other
  files (`quat.h`, `graph_dev.h`, `stl_parser.h`) are parameters.
* The arrays `lastx`, `lasty` are maps from indices to values; the indices
  used by `main_da_motion_notify` are the named definitions `record_index`
  and `oldest_index`.
* A C string is the list of its bytes before the terminating NUL.
-/

namespace MeshViewer

/-! ## Mouse, keyboard and zoom state -/

/-- The three components of a `union vec3`. -/
structure Vec3 (F : Type) where
  x : F
  y : F
  z : F
deriving DecidableEq, Repr

/-- What `mesh_viewer.c` takes from elsewhere: the floating-point operations
of the mouse code and the declarations of `quat.h` and `graph_dev.h`.

* `ofInt p` is the cast `(float) p`;
* `fdiv a b` is the `float` division `a / b`;
* `scale q` is `2.0 * (q - 0.5)` stored into a `float`;
* `fsub a b` is the `float` subtraction `a - b`;
* `fzero`, `fnegone` are the constants `0` and `-1.0` stored into a `float`;
* `quat_identity` is `IDENTITY_QUAT_INITIALIZER`;
* `quat_from_u2v u v up` is the quaternion written by
  `quat_from_u2v(&q, &u, &v, up)`;
* `quat_mul q1 q2` is the quaternion written by `quat_mul(&o, &q1, &q2)`;
* `debug_menu_click x y` is whether `graph_dev_graph_dev_debug_menu_click(x, y)`
  returns non-zero. -/
structure Ext (F Q : Type) where
  ofInt : Int → F
  fdiv : F → F → F
  scale : F → F
  fsub : F → F → F
  fzero : F
  fnegone : F
  quat_identity : Q
  quat_from_u2v : Vec3 F → Vec3 F → Option (Vec3 F) → Q
  quat_mul : Q → Q → Q
  debug_menu_click : Int → Int → Bool

/-- The file-scope variables of `mesh_viewer.c` that the event handlers read
or write. -/
structure State (F Q : Type) where
  real_screen_width : Int
  real_screen_height : Int
  display_frame_stats : Int
  helpmode : Int
  isDragging : Int
  isDraggingLight : Int
  last_lobby_orientation : Q
  last_light_orientation : Q
  lobby_orientation : Q
  light_orientation : Q
  lobby_zoom : Int
  lastx : Int → F
  lasty : Int → F
  last : Int
  lastcount : Int

def SCREEN_WIDTH : Int := 800

def SCREEN_HEIGHT : Int := 600

def MOUSE_HISTORY : Int := 5

/-- The static initialisers, and the screen size `main` stores before it
enters its loop. -/
def initial {F Q : Type} (E : Ext F Q) : State F Q :=
  { real_screen_width := SCREEN_WIDTH
    real_screen_height := SCREEN_HEIGHT
    display_frame_stats := 1
    helpmode := 0
    isDragging := 0
    isDraggingLight := 0
    last_lobby_orientation := E.quat_identity
    last_light_orientation := E.quat_identity
    lobby_orientation := E.quat_identity
    light_orientation := E.quat_identity
    lobby_zoom := 255
    lastx := fun _ => E.fzero
    lasty := fun _ => E.fzero
    last := -1
    lastcount := 0 }

/-- The expression `2.0 * (((float) p / (float) extent) - 0.5)`. -/
def normalise {F Q : Type} (E : Ext F Q) (p extent : Int) : F :=
  E.scale (E.fdiv (E.ofInt p) (E.ofInt extent))

/-- The index `last % MOUSE_HISTORY` written by `main_da_motion_notify`
after `last++`, while the history fills. -/
def record_index {F Q : Type} (s : State F Q) : Int :=
  Int.tmod (s.last + 1) MOUSE_HISTORY

/-- The index `(last + 1) % MOUSE_HISTORY` read (and then written) by
`main_da_motion_notify` once the history is full. -/
def oldest_index {F Q : Type} (s : State F Q) : Int :=
  Int.tmod (s.last + 1) MOUSE_HISTORY

/-- The vector `v1` of `main_da_motion_notify`. -/
def drag_v1 {F Q : Type} (E : Ext F Q) : Vec3 F :=
  { x := E.fnegone, y := E.fzero, z := E.fzero }

/-- The vector `v2` of `main_da_motion_notify`, from the current position
`(cx, cy)` and the stored position `(lx, ly)`. -/
def drag_v2 {F Q : Type} (E : Ext F Q) (cx cy lx ly : F) : Vec3 F :=
  { x := E.fnegone, y := E.fsub cy ly, z := E.fsub cx lx }

/-- The function `main_da_motion_notify(x, y)`: the new state and the
returned value. -/
def main_da_motion_notify {F Q : Type} (E : Ext F Q) (x y : Int)
    (s : State F Q) : State F Q × Int :=
  if s.isDragging = 0 then
    ({ s with lastcount := 0 }, 0)
  else if s.lastcount < MOUSE_HISTORY then
    ({ s with
        last := s.last + 1
        lastx := Function.update s.lastx (record_index s)
          (normalise E x s.real_screen_width)
        lasty := Function.update s.lasty (record_index s)
          (normalise E y s.real_screen_height)
        lastcount := s.lastcount + 1 }, 0)
  else
    let lx := s.lastx (oldest_index s)
    let ly := s.lasty (oldest_index s)
    let cx := normalise E x s.real_screen_width
    let cy := normalise E y s.real_screen_height
    let rotation := E.quat_from_u2v (drag_v1 E) (drag_v2 E cx cy lx ly) none
    let s1 : State F Q :=
      { s with
        lastcount := s.lastcount + 1
        last := oldest_index s
        lastx := Function.update s.lastx (oldest_index s) cx
        lasty := Function.update s.lasty (oldest_index s) cy }
    if s.isDraggingLight ≠ 0 then
      ({ s1 with
          light_orientation := E.quat_mul rotation s.last_light_orientation
          last_light_orientation := E.quat_mul rotation s.last_light_orientation }, 0)
    else
      ({ s1 with
          lobby_orientation := E.quat_mul rotation s.last_lobby_orientation
          last_lobby_orientation := E.quat_mul rotation s.last_lobby_orientation }, 0)

def KMOD_LCTRL : Nat := 0x0040

def KMOD_RCTRL : Nat := 0x0080

/-- The function `main_da_button_press(button, x, y)`; `modstate` is the
value `SDL_GetModState()` returns during the call. -/
def main_da_button_press {F Q : Type} (button : Int) (_x _y : Int) (modstate : Nat)
    (s : State F Q) : State F Q × Int :=
  if button = 3 then
    ({ s with
        isDragging := 1
        isDraggingLight := ((modstate &&& (KMOD_LCTRL ||| KMOD_RCTRL) : Nat) : Int)
        last := -1
        lastcount := 0 }, 0)
  else
    (s, 0)

/-- The function `main_da_scroll(direction)`. -/
def main_da_scroll {F Q : Type} (direction : Int) (s : State F Q) : State F Q × Int :=
  let z1 := if direction ≠ 0 then s.lobby_zoom + 10 else s.lobby_zoom - 10
  let z2 := if z1 < 0 then 0 else z1
  let z3 := if z2 > 255 then 255 else z2
  ({ s with lobby_zoom := z3 }, 1)

/-- The function `main_da_button_release(button, x, y)`. -/
def main_da_button_release {F Q : Type} (E : Ext F Q) (button : Int) (x y : Int)
    (s : State F Q) : State F Q × Int :=
  if button = 4 then
    ((main_da_scroll 1 s).1, 1)
  else if button = 5 then
    ((main_da_scroll 0 s).1, 1)
  else
    let s1 : State F Q := { s with last := -1, lastcount := 0 }
    if button = 1 ∧ s1.display_frame_stats ≠ 0 ∧ E.debug_menu_click x y = true then
      (s1, 1)
    else if button = 3 ∧ s1.isDragging ≠ 0 then
      ({ s1 with isDragging := 0, isDraggingLight := 0 }, 1)
    else
      (s1, 1)

def SDL_BUTTON_LEFT : Int := 1

def SDL_BUTTON_MIDDLE : Int := 2

def SDL_BUTTON_RIGHT : Int := 3

def SDL_BUTTON_WHEELUP : Int := 4

def SDL_BUTTON_WHEELDOWN : Int := 5

/-- The function `sdl_button_to_int`. -/
def sdl_button_to_int (sdl_button : Int) : Int :=
  if sdl_button = SDL_BUTTON_LEFT then 1
  else if sdl_button = SDL_BUTTON_MIDDLE then 2
  else if sdl_button = SDL_BUTTON_RIGHT then 3
  else if sdl_button = SDL_BUTTON_WHEELUP then 4
  else if sdl_button = SDL_BUTTON_WHEELDOWN then 5
  else 0

/-- The key symbols `handle_key_down` distinguishes. -/
inductive SDLKey where
  | F1
  | ESCAPE
  | F11
  | PAUSE
  | other (sym : Nat)
deriving DecidableEq, Repr

/-- The function `handle_key_down`: the new state, or the code passed to
`quit`, which ends the process. -/
def handle_key_down {F Q : Type} (sym : SDLKey) (s : State F Q) : Except Int (State F Q) :=
  match sym with
  | SDLKey.F1 => Except.ok { s with helpmode := if s.helpmode = 0 then 1 else 0 }
  | SDLKey.ESCAPE => Except.error 0
  | SDLKey.F11 => Except.ok s
  | SDLKey.PAUSE =>
    Except.ok { s with display_frame_stats := Int.tmod (s.display_frame_stats + 1) 3 }
  | SDLKey.other _ => Except.ok s

/-- The condition `display_frame_stats > 0` under which `draw_screen` draws
the frame-rate statistics. -/
def stats_displayed {F Q : Type} (s : State F Q) : Prop :=
  s.display_frame_stats > 0

instance {F Q : Type} (s : State F Q) : Decidable (stats_displayed s) :=
  inferInstanceAs (Decidable (s.display_frame_stats > 0))

/-- An event taken off the SDL queue by `process_events`. A button-down
event carries the value `SDL_GetModState()` has while it is handled. -/
inductive Event where
  | keydown (sym : SDLKey)
  | quit
  | videoresize (w h : Int)
  | mousebuttondown (button x y : Int) (modstate : Nat)
  | mousebuttonup (button x y : Int)
  | mousemotion (x y : Int)
  | other
deriving DecidableEq, Repr

/-- One turn of the `switch` in `process_events`: the new state, or the exit
code when the process ends. -/
def process_event {F Q : Type} (E : Ext F Q) (e : Event) (s : State F Q) :
    Except Int (State F Q) :=
  match e with
  | Event.keydown sym => handle_key_down sym s
  | Event.quit => Except.error 0
  | Event.videoresize w h =>
    Except.ok { s with real_screen_width := w, real_screen_height := h }
  | Event.mousebuttondown b x y m =>
    if sdl_button_to_int b > 0 then
      Except.ok (main_da_button_press (sdl_button_to_int b) x y m s).1
    else Except.ok s
  | Event.mousebuttonup b x y =>
    if sdl_button_to_int b > 0 then
      Except.ok (main_da_button_release E (sdl_button_to_int b) x y s).1
    else Except.ok s
  | Event.mousemotion x y => Except.ok (main_da_motion_notify E x y s).1
  | Event.other => Except.ok s

/-- The loop of `process_events` over the queued events, oldest first. -/
def process_events {F Q : Type} (E : Ext F Q) : List Event → State F Q → Except Int (State F Q)
  | [], s => Except.ok s
  | e :: es, s =>
    match process_event E e s with
    | Except.ok s1 => process_events E es s1
    | Except.error code => Except.error code

/-- The states the viewer can be in after handling some events. -/
def Reachable {F Q : Type} (E : Ext F Q) (s : State F Q) : Prop :=
  ∃ evs : List Event, process_events E evs (initial E) = Except.ok s

/-- An interpretation of `Ext` in exact rational arithmetic, in which a
quaternion is the list of the vector pairs of the rotations composed so far
(newest first) and no click lands on the debug menu. -/
def exactExt : Ext ℚ (List (Vec3 ℚ × Vec3 ℚ)) :=
  { ofInt := fun p => (p : ℚ)
    fdiv := fun a b => a / b
    scale := fun q => 2 * (q - 1 / 2)
    fsub := fun a b => a - b
    fzero := 0
    fnegone := -1
    quat_identity := []
    quat_from_u2v := fun u v _ => [(u, v)]
    quat_mul := fun q1 q2 => q1 ++ q2
    debug_menu_click := fun _ _ => false }

/-- Five motion events. -/
def sample_motions : List Event :=
  [ Event.mousemotion 400 300, Event.mousemotion 410 300, Event.mousemotion 420 300,
    Event.mousemotion 430 300, Event.mousemotion 440 300 ]

/-- The events of a right-button drag with five motion events. -/
def sample_drag : List Event :=
  Event.mousebuttondown 3 400 300 0 :: sample_motions

/-! ## Frame pacer -/

def FPS : Nat := 60

/-- The constant `maxTimeBehind = 0.5` of `main`. -/
def maxTimeBehind : ℚ := 1 / 2

/-- The variable `delta = 1.0/(double)FPS` of `main`, in exact arithmetic. -/
def delta : ℚ := 1 / (FPS : ℚ)

/-- The variables `frame`, `currentTime` and `nextTime` of `main`, times in
exact arithmetic. -/
structure Pacer where
  frame : Nat
  currentTime : ℚ
  nextTime : ℚ
deriving DecidableEq

/-- What one iteration of the loop of `main` did: whether it called
`process_events` and `draw_screen`, whether it called
`graph_dev_reload_changed_textures`, and the argument of `sleep_double` when
it called it. -/
structure Iteration where
  drawn : Bool
  reload : Bool
  sleep : Option ℚ
deriving DecidableEq

/-- The variables of `main` when it enters its loop; `t0` is the first
result of `time_now_double()`. -/
def pacer_start (t0 : ℚ) : Pacer :=
  { frame := 0, currentTime := t0, nextTime := t0 + delta }

/-- One iteration of the `while (1)` loop of `main`; `t` is the result of
`time_now_double()` at its top. The counter `frame` is an `unsigned long`
of 64 bits. -/
def pacer_iteration (t : ℚ) (p : Pacer) : Pacer × Iteration :=
  let n1 := if t - p.nextTime > maxTimeBehind then t else p.nextTime
  if t ≥ n1 then
    ({ frame := (p.frame + 1) % 2 ^ 64, currentTime := t, nextTime := n1 + delta },
     { drawn := true, reload := decide (p.frame % FPS = 0), sleep := none })
  else
    let timeToSleep := n1 - t
    ({ frame := p.frame, currentTime := t, nextTime := n1 },
     { drawn := false, reload := false,
       sleep := if timeToSleep > 0 then some timeToSleep else none })

/-- The loop of `main` over the successive clock readings. -/
def pacer_run : List ℚ → Pacer → Pacer
  | [], p => p
  | t :: ts, p => pacer_run ts (pacer_iteration t p).1

/-! ## Model loading -/

/-- The function `tolower` of the C library in the C locale, on a byte. -/
def tolower (c : Nat) : Nat :=
  if 65 ≤ c ∧ c ≤ 90 then c + 32 else c

/-- The function `strcasecmp` of the C library on two C strings. -/
def strcasecmp : List Nat → List Nat → Int
  | [], [] => 0
  | [], b :: _ => 0 - (tolower b : Int)
  | a :: _, [] => (tolower a : Int)
  | a :: r1, b :: r2 =>
    if tolower a = tolower b then strcasecmp r1 r2
    else (tolower a : Int) - (tolower b : Int)

/-- The bytes of the string literal "obj". -/
def str_obj : List Nat := [111, 98, 106]

/-- The bytes of the string literal "stl". -/
def str_stl : List Nat := [115, 116, 108]

/-- A well-formed C string: every byte is a non-NUL `char`. -/
def CString (f : List Nat) : Prop :=
  ∀ c ∈ f, 0 < c ∧ c < 256

/-- The C string read through the pointer `&filename[i]`: the bytes from
position `i` up to the terminating NUL at position `strlen(filename)`.
Positions outside `0..strlen(filename)` are outside the string. -/
def cstr_at (filename : List Nat) (i : Int) : Option (List Nat) :=
  if 0 ≤ i ∧ i ≤ (filename.length : Int) then some (filename.drop i.toNat) else none

/-- A call of one of the two mesh readers of `stl_parser.h`. -/
inductive ReaderCall where
  | read_obj_file (filename : List Nat)
  | read_stl_file (filename : List Nat)
deriving DecidableEq, Repr

/-- What a run of `snis_read_model` did: the positions of the file name at
which it formed a string, in order; the reader calls it made; the two string
arguments of its `printf` when it printed, the second being `none` when its
pointer lies outside the file name, so that the file name does not determine
the text; and the pointer it returned (`none` is NULL). -/
structure ReadResult (M : Type) where
  positions : List Int
  calls : List ReaderCall
  printed : Option (List Nat × Option (List Nat))
  ret : Option M
deriving DecidableEq

/-- The function `snis_read_model`, the two readers being parameters. The
result is `Except.error i` when the string it compares with "obj" lies at a
position `i` outside the file name: the file name does not determine which
branch the function then takes. The string at `l - 4` is only printed; the
function returns NULL after the `printf` wherever that position lies. -/
def snis_read_model {M : Type} (read_obj_file read_stl_file : List Nat → Option M)
    (filename : List Nat) : Except Int (ReadResult M) :=
  let l : Int := (filename.length : Int)
  match cstr_at filename (l - 3) with
  | none => Except.error (l - 3)
  | some s3 =>
    if strcasecmp s3 str_obj = 0 then
      Except.ok { positions := [l - 3],
                  calls := [ReaderCall.read_obj_file filename], printed := none,
                  ret := read_obj_file filename }
    else if strcasecmp s3 str_stl = 0 then
      Except.ok { positions := [l - 3, l - 3],
                  calls := [ReaderCall.read_stl_file filename], printed := none,
                  ret := read_stl_file filename }
    else
      Except.ok { positions := [l - 3, l - 3, l - 4],
                  calls := [], printed := some (filename, cstr_at filename (l - 4)),
                  ret := none }

/-- How the loading step of `main` ends: with the mesh loaded, with a call
of `exit`, or undetermined by the file name because `snis_read_model`
compared a string at `position`, outside the file name. -/
inductive Load (M : Type) where
  | fault (position : Int)
  | exit (code : Int)
  | loaded (mesh : M)
deriving DecidableEq

/-- The lines of `main` that assign `snis_read_model(filename)` to
`target_mesh` and call `exit(-1)` when the result is NULL. -/
def main_load {M : Type} (read_obj_file read_stl_file : List Nat → Option M)
    (filename : List Nat) : Load M :=
  match snis_read_model read_obj_file read_stl_file filename with
  | Except.error i => Load.fault i
  | Except.ok r =>
    match r.ret with
    | none => Load.exit (-1)
    | some m => Load.loaded m

/-- The last three bytes of a file name of at least three bytes. -/
def last3 (filename : List Nat) : List Nat :=
  filename.drop (filename.length - 3)

/-- The last three characters equal `ext` when ASCII case is ignored. -/
def suffix_is (filename ext : List Nat) : Prop :=
  (last3 filename).map tolower = ext.map tolower

instance (filename ext : List Nat) : Decidable (suffix_is filename ext) :=
  inferInstanceAs (Decidable ((last3 filename).map tolower = ext.map tolower))

/-- Two bytes are the same character when ASCII case is ignored: they are
equal, or one is an upper-case letter `A`..`Z` (65..90) and the other the
lower-case letter 32 above it. -/
def same_letter (c d : Nat) : Prop :=
  c = d ∨ (65 ≤ c ∧ c ≤ 90 ∧ d = c + 32) ∨ (65 ≤ d ∧ d ≤ 90 ∧ c = d + 32)

instance (c d : Nat) : Decidable (same_letter c d) :=
  inferInstanceAs
    (Decidable (c = d ∨ (65 ≤ c ∧ c ≤ 90 ∧ d = c + 32) ∨ (65 ≤ d ∧ d ≤ 90 ∧ c = d + 32)))

/-- Two strings are equal ignoring ASCII case: they have the same length and
the same characters, position by position, when ASCII case is ignored. -/
def equal_ignoring_case (a b : List Nat) : Prop :=
  a.length = b.length ∧ ∀ p ∈ List.zip a b, same_letter p.1 p.2

instance (a b : List Nat) : Decidable (equal_ignoring_case a b) :=
  inferInstanceAs (Decidable (a.length = b.length ∧ ∀ p ∈ List.zip a b, same_letter p.1 p.2))

/-- The last three characters of the file name equal `ext` ignoring ASCII
case, in the words of the specification. -/
def ends_in (filename ext : List Nat) : Prop :=
  equal_ignoring_case (filename.drop (filename.length - 3)) ext

instance (filename ext : List Nat) : Decidable (ends_in filename ext) :=
  inferInstanceAs (Decidable (equal_ignoring_case (filename.drop (filename.length - 3)) ext))

/-- The rotation of a drag step: `quat_from_u2v(v1, v2)` with
`v1 = (x = -1, y = 0, z = 0)` and `v2 = (x = -1, y = cy - ly, z = cx - lx)`,
the fourth argument of the call being the null pointer. -/
def drag_rotation {F Q : Type} (E : Ext F Q) (cx cy lx ly : F) : Q :=
  E.quat_from_u2v { x := E.fnegone, y := E.fzero, z := E.fzero }
    { x := E.fnegone, y := E.fsub cy ly, z := E.fsub cx lx } none

/-- The modifier state of a button-down event that `process_events` hands to
`main_da_button_press` as button 3; `none` for every other event. -/
def right_press (e : Event) : Option Nat :=
  match e with
  | Event.mousebuttondown b _ _ m => if sdl_button_to_int b = 3 then some m else none
  | _ => none

/-- Whether the event is a button-up event that `process_events` hands to
`main_da_button_release` as button 3. -/
def right_release (e : Event) : Bool :=
  match e with
  | Event.mousebuttonup b _ _ => decide (sdl_button_to_int b = 3)
  | _ => false

/-- The events that may come between the motion events of one drag: no
button press, no button release other than a wheel release, and nothing that
ends the process. -/
def drag_quiet (e : Event) : Prop :=
  match e with
  | Event.keydown sym => sym ≠ SDLKey.ESCAPE
  | Event.quit => False
  | Event.videoresize _ _ => True
  | Event.mousebuttondown _ _ _ _ => False
  | Event.mousebuttonup b _ _ => sdl_button_to_int b = 4 ∨ sdl_button_to_int b = 5
  | Event.mousemotion _ _ => True
  | Event.other => True

/-- The normalised positions of the motion events of a list of events,
oldest first, each taken with the screen size in force when the event is
handled; `w`, `h` are the screen size before the first event. -/
def motion_positions {F Q : Type} (E : Ext F Q) : Int → Int → List Event → List (F × F)
  | _, _, [] => []
  | w, h, Event.mousemotion x y :: es =>
    (normalise E x w, normalise E y h) :: motion_positions E w h es
  | _, _, Event.videoresize w1 h1 :: es => motion_positions E w1 h1 es
  | w, h, _ :: es => motion_positions E w h es

/-- The state after the events `evs` from the initial state (the initial
state itself when the events end the process). -/
def after_events {F Q : Type} (E : Ext F Q) (evs : List Event) : State F Q :=
  match process_events E evs (initial E) with
  | Except.ok s => s
  | Except.error _ => initial E

/-- The state of the mouse history during a drag in which the motion events
handled so far recorded the positions `P` (oldest first): the counter is the
number of positions, `last` is the slot of the newest one, and the slots hold
the newest five positions, position `j` in slot `j % 5`. -/
structure Window {F Q : Type} (P : List (F × F)) (s : State F Q) : Prop where
  dragging : s.isDragging = 1
  count : s.lastcount = (P.length : Int)
  last_empty : P.length = 0 → s.last = -1
  last_pos : 0 < P.length → s.last = (((P.length - 1) % 5 : Nat) : Int)
  stored : ∀ j : Nat, j < P.length → P.length ≤ j + 5 →
    P[j]? = some (s.lastx ((j % 5 : Nat) : Int), s.lasty ((j % 5 : Nat) : Int))

/-- The schedule value after the skip test of the frame pacer, in the words
of the specification: the clock reading `t` when `t - n > 1/2`, else `n`. -/
def skipped_schedule (t n : ℚ) : ℚ :=
  if t - n > 1 / 2 then t else n

/-- The properties of the state that every handler keeps. -/
structure Inv {F Q : Type} (s : State F Q) : Prop where
  zoom_lo : 0 ≤ s.lobby_zoom
  zoom_hi : s.lobby_zoom ≤ 255
  lobby_eq : s.last_lobby_orientation = s.lobby_orientation
  light_eq : s.last_light_orientation = s.light_orientation
  last_lo : -1 ≤ s.last
  last_hi : s.last ≤ 4
  count_lo : 0 ≤ s.lastcount
  filling : s.isDragging ≠ 0 → s.lastcount < 5 → s.last = s.lastcount - 1
  stats_lo : 0 ≤ s.display_frame_stats
  stats_hi : s.display_frame_stats ≤ 2

/-! ## Shared lemmas -/

theorem tmod_five_eq (a : Int) (h : 0 ≤ a) : Int.tmod a 5 = a % 5 :=
  Int.tmod_eq_emod h (by decide)

theorem tmod_three_eq (a : Int) (h : 0 ≤ a) : Int.tmod a 3 = a % 3 :=
  Int.tmod_eq_emod h (by decide)

theorem inv_initial {F Q : Type} (E : Ext F Q) : Inv (initial E) := by
  constructor <;> simp [initial]

theorem inv_motion {F Q : Type} (E : Ext F Q) (x y : Int) (s : State F Q) (h : Inv s) :
    Inv (main_da_motion_notify E x y s).1 := by
  obtain ⟨h1, h2, h3, h4, h5, h6, h7, h8, h9, h10⟩ := h
  have hm : Int.tmod (s.last + 1) 5 = (s.last + 1) % 5 := tmod_five_eq _ (by omega)
  unfold main_da_motion_notify
  by_cases hd : s.isDragging = 0
  · simp only [hd, if_true]
    constructor <;> simp_all
  · simp only [hd, if_false]
    by_cases hc : s.lastcount < MOUSE_HISTORY
    · simp only [hc, if_true]
      have hc5 : s.lastcount < 5 := hc
      have := h8 hd hc5
      constructor <;> simp_all <;> omega
    · simp only [hc, if_false]
      have hc5 : ¬ s.lastcount < 5 := hc
      by_cases hl : s.isDraggingLight ≠ 0
      · rw [if_pos hl]
        constructor <;> simp_all [oldest_index, MOUSE_HISTORY] <;> omega
      · rw [if_neg hl]
        constructor <;> simp_all [oldest_index, MOUSE_HISTORY] <;> omega

theorem inv_press {F Q : Type} (b x y : Int) (m : Nat) (s : State F Q) (h : Inv s) :
    Inv (main_da_button_press b x y m s).1 := by
  obtain ⟨h1, h2, h3, h4, h5, h6, h7, h8, h9, h10⟩ := h
  unfold main_da_button_press
  by_cases hb : b = 3
  · simp only [hb, if_true]
    constructor <;> simp_all
  · simp only [hb, if_false]
    exact ⟨h1, h2, h3, h4, h5, h6, h7, h8, h9, h10⟩

theorem inv_scroll {F Q : Type} (d : Int) (s : State F Q) (h : Inv s) :
    Inv (main_da_scroll d s).1 := by
  obtain ⟨h1, h2, h3, h4, h5, h6, h7, h8, h9, h10⟩ := h
  unfold main_da_scroll
  constructor <;> simp_all <;> split_ifs <;> omega

theorem inv_release {F Q : Type} (E : Ext F Q) (b x y : Int) (s : State F Q) (h : Inv s) :
    Inv (main_da_button_release E b x y s).1 := by
  unfold main_da_button_release
  by_cases h4 : b = 4
  · simp only [h4, if_true]
    exact inv_scroll 1 s h
  · simp only [h4, if_false]
    by_cases h5 : b = 5
    · simp only [h5, if_true]
      exact inv_scroll 0 s h
    · simp only [h5, if_false]
      obtain ⟨h1, h2, h3, h4, h5, h6, h7, h8, h9, h10⟩ := h
      split_ifs <;> constructor <;> simp_all

theorem inv_key {F Q : Type} (sym : SDLKey) (s s1 : State F Q) (h : Inv s)
    (hk : handle_key_down sym s = Except.ok s1) : Inv s1 := by
  obtain ⟨h1, h2, h3, h4, h5, h6, h7, h8, h9, h10⟩ := h
  have hm : Int.tmod (s.display_frame_stats + 1) 3 = (s.display_frame_stats + 1) % 3 :=
    tmod_three_eq _ (by omega)
  cases sym <;> simp [handle_key_down] at hk <;> subst hk <;>
    constructor <;> simp_all <;> omega

theorem inv_event {F Q : Type} (E : Ext F Q) (e : Event) (s s1 : State F Q) (h : Inv s)
    (he : process_event E e s = Except.ok s1) : Inv s1 := by
  cases e with
  | keydown sym => exact inv_key sym s s1 h he
  | quit => simp [process_event] at he
  | videoresize w ht =>
    simp [process_event] at he
    subst he
    obtain ⟨h1, h2, h3, h4, h5, h6, h7, h8, h9, h10⟩ := h
    exact ⟨h1, h2, h3, h4, h5, h6, h7, h8, h9, h10⟩
  | mousebuttondown b x y m =>
    simp only [process_event] at he
    split_ifs at he <;> cases he
    · exact inv_press _ x y m s h
    · exact h
  | mousebuttonup b x y =>
    simp only [process_event] at he
    split_ifs at he <;> cases he
    · exact inv_release E _ x y s h
    · exact h
  | mousemotion x y =>
    simp only [process_event] at he
    cases he
    exact inv_motion E x y s h
  | other =>
    simp only [process_event] at he
    cases he
    exact h

theorem inv_events {F Q : Type} (E : Ext F Q) (evs : List Event) :
    ∀ s s1 : State F Q, Inv s → process_events E evs s = Except.ok s1 → Inv s1 := by
  induction evs with
  | nil =>
    intro s s1 h he
    simp only [process_events] at he
    cases he
    exact h
  | cons e es ih =>
    intro s s1 h he
    simp only [process_events] at he
    cases hp : process_event E e s with
    | error c => rw [hp] at he; cases he
    | ok s2 =>
      rw [hp] at he
      exact ih s2 s1 (inv_event E e s s2 h hp) he

theorem inv_reachable {F Q : Type} (E : Ext F Q) (s : State F Q) (h : Reachable E s) :
    Inv s := by
  obtain ⟨evs, he⟩ := h
  exact inv_events E evs _ _ (inv_initial E) he

/-! ## Scroll-wheel zoom -/

/-- C3: for a zoom value in [0, 255] a wheel-up release (button 4) sets
`lobby_zoom` to `min 255 (z + 10)` and a wheel-down release (button 5) sets it
to `max 0 (z - 10)`, changing nothing else and returning 1; and from the
initial state every sequence of events leaves `lobby_zoom` in [0, 255]. -/
theorem scroll_zoom_saturating {F Q : Type} (E : Ext F Q) (s : State F Q) (x y : Int)
    (h0 : 0 ≤ s.lobby_zoom) (h1 : s.lobby_zoom ≤ 255) :
    main_da_button_release E 4 x y s
        = ({ s with lobby_zoom := min 255 (s.lobby_zoom + 10) }, 1) ∧
      main_da_button_release E 5 x y s
        = ({ s with lobby_zoom := max 0 (s.lobby_zoom - 10) }, 1) ∧
      (main_da_scroll 1 s).2 = 1 ∧ (main_da_scroll 0 s).2 = 1 ∧
      (initial E).lobby_zoom = 255 ∧
      ∀ (evs : List Event) (s1 : State F Q),
        process_events E evs (initial E) = Except.ok s1 →
          0 ≤ s1.lobby_zoom ∧ s1.lobby_zoom ≤ 255 := by
  refine ⟨?_, ?_, rfl, rfl, rfl, ?_⟩
  · have hz : min 255 (s.lobby_zoom + 10)
        = if s.lobby_zoom + 10 > 255 then 255 else s.lobby_zoom + 10 := by
      split_ifs <;> omega
    have hn : ¬ s.lobby_zoom + 10 < 0 := by omega
    simp [main_da_button_release, main_da_scroll, hz, hn]
  · have hz : max 0 (s.lobby_zoom - 10)
        = if s.lobby_zoom - 10 < 0 then 0 else s.lobby_zoom - 10 := by
      split_ifs <;> omega
    have hn : ¬ (if s.lobby_zoom - 10 < 0 then 0 else s.lobby_zoom - 10) > 255 := by
      split_ifs <;> omega
    have h45 : ¬ ((5 : Int) = 4) := by decide
    simp only [main_da_button_release, main_da_scroll, hz, if_neg h45, if_true, if_neg hn,
      ne_eq, not_true_eq_false, if_false]
  · intro evs s1 he
    have hi := inv_reachable E s1 ⟨evs, he⟩
    exact ⟨hi.zoom_lo, hi.zoom_hi⟩

/-- The hypothesis of `scroll_zoom_saturating` holds at the initial state,
where a wheel-up release leaves the zoom at 255. -/
theorem scroll_zoom_saturating_witness :
    (0 : Int) ≤ (initial exactExt).lobby_zoom ∧ (initial exactExt).lobby_zoom ≤ 255 ∧
      (main_da_button_release exactExt 4 0 0 (initial exactExt)).1.lobby_zoom = 255 ∧
      (main_da_button_release exactExt 5 0 0 (initial exactExt)).1.lobby_zoom = 245 := by
  have h := scroll_zoom_saturating exactExt (initial exactExt) 0 0 (by decide) (by decide)
  refine ⟨by decide, by decide, ?_, ?_⟩
  · rw [h.1]; decide
  · rw [h.2.1]; decide

/-! ## The PAUSE key -/

/-- C6, the claim as stated fails: at the initial state the statistics are
displayed (`display_frame_stats = 1`), and after a PAUSE key press they are
still displayed (`display_frame_stats = 2`). -/
theorem pause_toggle_counterexample :
    stats_displayed (initial exactExt) ∧
      ∃ s1, handle_key_down SDLKey.PAUSE (initial exactExt) = Except.ok s1 ∧
        s1.display_frame_stats = 2 ∧
        ¬ (stats_displayed s1 ↔ ¬ stats_displayed (initial exactExt)) := by
  refine ⟨by decide, _, rfl, by decide, ?_⟩
  intro h
  exact (h.1 (by decide)) (by decide)

/-- C6 as amended: in every reachable state a PAUSE key press steps
`display_frame_stats` through the cycle 0, 1, 2, 0 and changes no other
variable, so the statistics are displayed after the press exactly when
`display_frame_stats` was not 2 before it. -/
theorem pause_cycles_stats {F Q : Type} (E : Ext F Q) (s : State F Q)
    (h : Reachable E s) :
    ∃ d : Int,
      handle_key_down SDLKey.PAUSE s = Except.ok { s with display_frame_stats := d } ∧
      (s.display_frame_stats = 0 → d = 1) ∧
      (s.display_frame_stats = 1 → d = 2) ∧
      (s.display_frame_stats = 2 → d = 0) ∧
      (s.display_frame_stats = 0 ∨ s.display_frame_stats = 1 ∨ s.display_frame_stats = 2) ∧
      (stats_displayed ({ s with display_frame_stats := d } : State F Q)
        ↔ s.display_frame_stats ≠ 2) := by
  have hi := inv_reachable E s h
  have hlo := hi.stats_lo
  have hhi := hi.stats_hi
  have hm : Int.tmod (s.display_frame_stats + 1) 3 = (s.display_frame_stats + 1) % 3 :=
    tmod_three_eq _ (by omega)
  refine ⟨Int.tmod (s.display_frame_stats + 1) 3, rfl, ?_, ?_, ?_, ?_, ?_⟩
  · intro h0; rw [hm]; omega
  · intro h0; rw [hm]; omega
  · intro h0; rw [hm]; omega
  · omega
  · simp only [stats_displayed]
    rw [hm]
    constructor <;> intro _ <;> omega

/-- The initial state is reachable, and there a PAUSE key press leaves the
statistics displayed. -/
theorem pause_cycles_stats_witness :
    Reachable exactExt (initial exactExt) ∧
      ∃ d : Int,
        handle_key_down SDLKey.PAUSE (initial exactExt)
          = Except.ok { initial exactExt with display_frame_stats := d } ∧ d = 2 := by
  have hr : Reachable exactExt (initial exactExt) := ⟨[], rfl⟩
  obtain ⟨d, h1, _, h2, _⟩ := pause_cycles_stats exactExt (initial exactExt) hr
  exact ⟨hr, d, h1, h2 rfl⟩

/-! ## Frame pacer -/

/-- C4: with `n1` the schedule after the skip test, an iteration draws a
frame exactly when `t ≥ n1`; then `nextTime` becomes `n1 + 1/60` and no sleep
is requested; otherwise no frame is drawn, `nextTime` stays `n1` and a sleep
of exactly `n1 - t` is requested. -/
theorem pacer_step (t : ℚ) (p : Pacer) :
    ((pacer_iteration t p).2.drawn = true ↔ t ≥ skipped_schedule t p.nextTime) ∧
      (t ≥ skipped_schedule t p.nextTime →
        (pacer_iteration t p).1.nextTime = skipped_schedule t p.nextTime + 1 / 60 ∧
        (pacer_iteration t p).2.sleep = none) ∧
      (¬ t ≥ skipped_schedule t p.nextTime →
        (pacer_iteration t p).2.drawn = false ∧
        (pacer_iteration t p).1.nextTime = skipped_schedule t p.nextTime ∧
        (pacer_iteration t p).2.sleep = some (skipped_schedule t p.nextTime - t)) := by
  have hs : skipped_schedule t p.nextTime
      = if t - p.nextTime > maxTimeBehind then t else p.nextTime := rfl
  have hd : delta = 1 / 60 := by norm_num [delta, FPS]
  by_cases hg : t ≥ skipped_schedule t p.nextTime
  · have hg1 := hg
    rw [hs] at hg1
    have e : pacer_iteration t p
        = ({ frame := (p.frame + 1) % 2 ^ 64, currentTime := t,
             nextTime := skipped_schedule t p.nextTime + 1 / 60 },
           { drawn := true, reload := decide (p.frame % FPS = 0), sleep := none }) := by
      simp only [pacer_iteration, if_pos hg1, hd, hs]
    rw [e]
    exact ⟨⟨fun _ => hg, fun _ => rfl⟩, fun _ => ⟨rfl, rfl⟩, fun h => absurd hg h⟩
  · have hg1 := hg
    rw [hs] at hg1
    have hpos : (if t - p.nextTime > maxTimeBehind then t else p.nextTime) - t > 0 := by
      have := not_le.mp hg1
      linarith
    have e : pacer_iteration t p
        = ({ frame := p.frame, currentTime := t, nextTime := skipped_schedule t p.nextTime },
           { drawn := false, reload := false,
             sleep := some (skipped_schedule t p.nextTime - t) }) := by
      simp only [pacer_iteration, if_neg hg1, if_pos hpos, hs]
    rw [e]
    exact ⟨⟨fun h => Bool.noConfusion h, fun h => absurd h hg⟩, fun h => absurd h hg,
      fun _ => ⟨rfl, rfl, rfl⟩⟩

theorem delta_eq : delta = 1 / 60 := by
  norm_num [delta, FPS]

theorem pacer_iteration_gap (t : ℚ) (p : Pacer)
    (hgap : p.nextTime - p.currentTime ≤ 1 / 60) (ht : p.currentTime ≤ t) :
    (pacer_iteration t p).1.currentTime = t ∧
      (pacer_iteration t p).1.nextTime - (pacer_iteration t p).1.currentTime ≤ 1 / 60 := by
  have hd := delta_eq
  unfold pacer_iteration
  by_cases hskip : t - p.nextTime > maxTimeBehind
  · simp only [if_pos hskip, ge_iff_le, le_refl, if_true, true_and]
    rw [hd]
    linarith
  · simp only [if_neg hskip]
    by_cases hdue : t ≥ p.nextTime
    · simp only [if_pos hdue, true_and]
      rw [hd]
      linarith
    · simp only [if_neg hdue, true_and]
      linarith

theorem pacer_run_gap (t : ℚ) (ts : List ℚ) :
    ∀ p : Pacer, p.nextTime - p.currentTime ≤ 1 / 60 →
      List.Sorted (· ≤ ·) (p.currentTime :: (ts ++ [t])) →
      (pacer_run ts p).nextTime - (pacer_run ts p).currentTime ≤ 1 / 60 ∧
        (pacer_run ts p).currentTime ≤ t := by
  induction ts with
  | nil =>
    intro p hgap hs
    refine ⟨hgap, ?_⟩
    have := (List.sorted_cons.mp hs).1 t (by simp)
    exact this
  | cons t1 ts ih =>
    intro p hgap hs
    have h1 : p.currentTime ≤ t1 := (List.sorted_cons.mp hs).1 t1 (by simp)
    have hs1 : List.Sorted (· ≤ ·) (t1 :: (ts ++ [t])) := (List.sorted_cons.mp hs).2
    obtain ⟨hc, hg⟩ := pacer_iteration_gap t1 p hgap h1
    simp only [pacer_run]
    apply ih _ hg
    rw [hc]
    exact hs1

/-- C8: for non-decreasing clock readings `t0`, `pre`, `t`, at the top of
the iteration that reads `t` the schedule is at most one frame ahead, both of
the previous reading (`currentTime` before the assignment) and of `t`; every
sleep that iteration requests has a duration `d` with `0 < d ≤ 1/60`; and
when the iteration draws no frame it does request a sleep, so the guard
`timeToSleep > 0` holds whenever it is reached. -/
theorem pacer_one_frame_ahead (t0 : ℚ) (pre : List ℚ) (t : ℚ)
    (h : List.Sorted (· ≤ ·) (t0 :: (pre ++ [t]))) :
    (pacer_run pre (pacer_start t0)).nextTime
        - (pacer_run pre (pacer_start t0)).currentTime ≤ 1 / 60 ∧
      (pacer_run pre (pacer_start t0)).nextTime - t ≤ 1 / 60 ∧
      (∀ d : ℚ, (pacer_iteration t (pacer_run pre (pacer_start t0))).2.sleep = some d →
        0 < d ∧ d ≤ 1 / 60) ∧
      ((pacer_iteration t (pacer_run pre (pacer_start t0))).2.drawn = false →
        ∃ d : ℚ, (pacer_iteration t (pacer_run pre (pacer_start t0))).2.sleep = some d ∧
          d = (pacer_run pre (pacer_start t0)).nextTime - t ∧ 0 < d) := by
  have hstart : (pacer_start t0).nextTime - (pacer_start t0).currentTime ≤ 1 / 60 := by
    simp [pacer_start, delta_eq]
  obtain ⟨hgap, hle⟩ := pacer_run_gap t pre (pacer_start t0) hstart h
  generalize pacer_run pre (pacer_start t0) = p at hgap hle
  have hnext : p.nextTime - t ≤ 1 / 60 := by linarith
  refine ⟨hgap, hnext, ?_, ?_⟩
  · intro d hd
    unfold pacer_iteration at hd
    by_cases hskip : t - p.nextTime > maxTimeBehind
    · simp [if_pos hskip] at hd
    · simp only [if_neg hskip] at hd
      by_cases hdue : t ≥ p.nextTime
      · simp [if_pos hdue] at hd
      · have hpos : p.nextTime - t > 0 := by
          have := not_le.mp hdue
          linarith
        simp only [if_neg hdue, if_pos hpos, Option.some.injEq] at hd
        subst hd
        exact ⟨hpos, hnext⟩
  · intro hdr
    unfold pacer_iteration at hdr ⊢
    by_cases hskip : t - p.nextTime > maxTimeBehind
    · simp [if_pos hskip] at hdr
    · simp only [if_neg hskip] at hdr ⊢
      by_cases hdue : t ≥ p.nextTime
      · simp [if_pos hdue] at hdr
      · have hpos : p.nextTime - t > 0 := by
          have := not_le.mp hdue
          linarith
        simp only [if_neg hdue, if_pos hpos]
        exact ⟨_, rfl, rfl, hpos⟩

/-- The readings 0, 1/100, 1/50 are non-decreasing, and at the reading
1/50 the schedule is less than a frame ahead. -/
theorem pacer_one_frame_ahead_witness :
    List.Sorted (· ≤ ·) ((0 : ℚ) :: ([1 / 100] ++ [1 / 50])) ∧
      (pacer_run [1 / 100] (pacer_start 0)).nextTime - 1 / 50 ≤ 1 / 60 := by
  have hs : List.Sorted (· ≤ ·) ((0 : ℚ) :: ([1 / 100] ++ [1 / 50])) := by
    simp [List.Sorted]
    norm_num
  exact ⟨hs, (pacer_one_frame_ahead 0 [1 / 100] (1 / 50) hs).2.1⟩

/-! ## Model loading -/

theorem tolower_pos (c : Nat) (h : 0 < c) : 0 < tolower c := by
  unfold tolower
  split_ifs <;> omega

theorem strcasecmp_eq_zero_iff (a : List Nat) :
    ∀ b : List Nat, (∀ c ∈ a, 0 < c) → (∀ c ∈ b, 0 < c) →
      (strcasecmp a b = 0 ↔ a.map tolower = b.map tolower) := by
  induction a with
  | nil =>
    intro b _ hb
    cases b with
    | nil => simp [strcasecmp]
    | cons c r =>
      have := tolower_pos c (hb c (by simp))
      simp only [strcasecmp, List.map_nil, List.map_cons]
      constructor
      · intro h; omega
      · intro h; cases h
  | cons c r ih =>
    intro b ha hb
    have hc := tolower_pos c (ha c (by simp))
    cases b with
    | nil =>
      simp only [strcasecmp, List.map_nil, List.map_cons]
      constructor
      · intro h; omega
      · intro h; cases h
    | cons d r2 =>
      have hd := tolower_pos d (hb d (by simp))
      simp only [strcasecmp, List.map_cons, List.cons.injEq]
      by_cases he : tolower c = tolower d
      · rw [if_pos he]
        rw [ih r2 (fun x hx => ha x (by simp [hx])) (fun x hx => hb x (by simp [hx]))]
        simp [he]
      · rw [if_neg he]
        constructor
        · intro h; exact absurd (by omega) he
        · intro h; exact absurd h.1 he

theorem cstr_at_suffix (f : List Nat) (h3 : 3 ≤ f.length) :
    cstr_at f ((f.length : Int) - 3) = some (last3 f) := by
  unfold cstr_at last3
  have h : 0 ≤ (f.length : Int) - 3 ∧ (f.length : Int) - 3 ≤ (f.length : Int) := by omega
  rw [if_pos h]
  have e : ((f.length : Int) - 3).toNat = f.length - 3 := by omega
  rw [e]

theorem cstr_at_short (f : List Nat) (h3 : ¬ 3 ≤ f.length) :
    cstr_at f ((f.length : Int) - 3) = none := by
  unfold cstr_at
  have h : ¬ (0 ≤ (f.length : Int) - 3 ∧ (f.length : Int) - 3 ≤ (f.length : Int)) := by omega
  rw [if_neg h]

theorem suffix_test (f ext : List Nat) (hf : CString f) (hext : ∀ c ∈ ext, 0 < c) :
    strcasecmp (last3 f) ext = 0 ↔ suffix_is f ext := by
  unfold suffix_is
  apply strcasecmp_eq_zero_iff _ _ _ hext
  intro c hc
  exact (hf c (List.mem_of_mem_drop hc)).1

theorem str_obj_pos : ∀ c ∈ str_obj, 0 < c := by
  decide

theorem str_stl_pos : ∀ c ∈ str_stl, 0 < c := by
  decide

theorem suffix_obj_not_stl (f : List Nat) (ho : suffix_is f str_obj) :
    ¬ suffix_is f str_stl := by
  intro hs
  unfold suffix_is at ho hs
  rw [ho] at hs
  exact absurd hs (by decide)

/-- The ways `snis_read_model` ends on a file name of at least three bytes:
it returns what `read_obj_file` returns; it returns what `read_stl_file`
returns; with another suffix it prints and returns NULL without calling a
reader, and `main` exits with -1. -/
theorem read_model_dispatch {M : Type} (ro rs : List Nat → Option M) (f : List Nat)
    (hf : CString f) (h3 : 3 ≤ f.length) :
    (suffix_is f str_obj →
        snis_read_model ro rs f = Except.ok
          { positions := [(f.length : Int) - 3],
            calls := [ReaderCall.read_obj_file f], printed := none, ret := ro f }) ∧
      (¬ suffix_is f str_obj → suffix_is f str_stl →
        snis_read_model ro rs f = Except.ok
          { positions := [(f.length : Int) - 3, (f.length : Int) - 3],
            calls := [ReaderCall.read_stl_file f], printed := none, ret := rs f }) ∧
      (¬ suffix_is f str_obj → ¬ suffix_is f str_stl →
        snis_read_model ro rs f = Except.ok
          { positions := [(f.length : Int) - 3, (f.length : Int) - 3, (f.length : Int) - 4],
            calls := [], printed := some (f, cstr_at f ((f.length : Int) - 4)),
            ret := none } ∧
        main_load ro rs f = Load.exit (-1)) := by
  have hobj := suffix_test f str_obj hf str_obj_pos
  have hstl := suffix_test f str_stl hf str_stl_pos
  have hat := cstr_at_suffix f h3
  refine ⟨?_, ?_, ?_⟩
  · intro h
    simp only [snis_read_model, hat, if_pos (hobj.mpr h)]
  · intro h1 h2
    simp only [snis_read_model, hat, if_neg (fun h => h1 (hobj.mp h)), if_pos (hstl.mpr h2)]
  · intro h1 h2
    have e : snis_read_model ro rs f = Except.ok
        { positions := [(f.length : Int) - 3, (f.length : Int) - 3, (f.length : Int) - 4],
          calls := [], printed := some (f, cstr_at f ((f.length : Int) - 4)),
          ret := none } := by
      simp only [snis_read_model, hat, if_neg (fun h => h1 (hobj.mp h)),
        if_neg (fun h => h2 (hstl.mp h))]
    refine ⟨e, ?_⟩
    simp only [main_load, e]

theorem same_letter_iff (c d : Nat) : same_letter c d ↔ tolower c = tolower d := by
  unfold same_letter tolower
  split_ifs <;> omega

theorem equal_ignoring_case_iff (a : List Nat) :
    ∀ b : List Nat, equal_ignoring_case a b ↔ a.map tolower = b.map tolower := by
  induction a with
  | nil =>
    intro b
    cases b with
    | nil => simp [equal_ignoring_case]
    | cons d r => simp [equal_ignoring_case]
  | cons c r ih =>
    intro b
    cases b with
    | nil => simp [equal_ignoring_case]
    | cons d r2 =>
      have h := ih r2
      unfold equal_ignoring_case at h ⊢
      simp only [List.length_cons, add_left_inj, List.zip_cons_cons, List.mem_cons,
        forall_eq_or_imp, List.map_cons, List.cons.injEq]
      rw [same_letter_iff]
      constructor
      · rintro ⟨hl, hc, hr⟩
        exact ⟨hc, h.mp ⟨hl, hr⟩⟩
      · rintro ⟨hc, hr⟩
        exact ⟨(h.mpr hr).1, hc, (h.mpr hr).2⟩

theorem ends_in_obj_iff (f : List Nat) : ends_in f [111, 98, 106] ↔ suffix_is f str_obj := by
  unfold ends_in suffix_is last3 str_obj
  exact equal_ignoring_case_iff _ _

theorem ends_in_stl_iff (f : List Nat) : ends_in f [115, 116, 108] ↔ suffix_is f str_stl := by
  unfold ends_in suffix_is last3 str_stl
  exact equal_ignoring_case_iff _ _

/-- C5: for every file name of at least three characters `snis_read_model`
returns. It calls `read_obj_file` on the file name and returns its result
exactly when the last three characters are "obj" (bytes 111, 98, 106)
ignoring ASCII case; it calls `read_stl_file` and returns its result exactly
when they are "stl" (bytes 115, 116, 108) ignoring ASCII case; otherwise it
calls neither reader and returns NULL, and `main` exits with code -1. -/
theorem read_model_by_suffix {M : Type} (ro rs : List Nat → Option M) (f : List Nat)
    (hf : CString f) (h3 : 3 ≤ f.length) :
    ∃ r, snis_read_model ro rs f = Except.ok r ∧
      (ends_in f [111, 98, 106] →
        r.calls = [ReaderCall.read_obj_file f] ∧ r.ret = ro f) ∧
      (ends_in f [115, 116, 108] →
        r.calls = [ReaderCall.read_stl_file f] ∧ r.ret = rs f) ∧
      (¬ ends_in f [111, 98, 106] → ¬ ends_in f [115, 116, 108] →
        r.calls = [] ∧ r.ret = none ∧ main_load ro rs f = Load.exit (-1)) ∧
      (r.calls = [ReaderCall.read_obj_file f] ↔ ends_in f [111, 98, 106]) ∧
      (r.calls = [ReaderCall.read_stl_file f] ↔ ends_in f [115, 116, 108]) := by
  obtain ⟨d1, d2, d3⟩ := read_model_dispatch ro rs f hf h3
  rw [ends_in_obj_iff, ends_in_stl_iff]
  by_cases ho : suffix_is f str_obj
  · have hns := suffix_obj_not_stl f ho
    refine ⟨_, d1 ho, fun _ => ⟨rfl, rfl⟩, fun h => absurd h hns, fun h => absurd ho h,
      ⟨fun _ => ho, fun _ => rfl⟩, ⟨fun h => ?_, fun h => absurd h hns⟩⟩
    simp at h
  · by_cases hs : suffix_is f str_stl
    · refine ⟨_, d2 ho hs, fun h => absurd h ho, fun _ => ⟨rfl, rfl⟩, fun _ h => absurd hs h,
        ⟨fun h => ?_, fun h => absurd h ho⟩, ⟨fun _ => hs, fun _ => rfl⟩⟩
      simp at h
    · obtain ⟨e, hm⟩ := d3 ho hs
      refine ⟨_, e, fun h => absurd h ho, fun h => absurd h hs, fun _ _ => ⟨rfl, rfl, hm⟩,
        ⟨fun h => ?_, fun h => absurd h ho⟩, ⟨fun h => ?_, fun h => absurd h hs⟩⟩
      · simp at h
      · simp at h

/-- The file name "abc" is a C string of three characters that end in
neither "obj" nor "stl": `snis_read_model` returns NULL without calling a
reader and `main` exits with code -1. -/
theorem read_model_by_suffix_witness :
    CString [97, 98, 99] ∧ 3 ≤ ([97, 98, 99] : List Nat).length ∧
      ∃ r, snis_read_model (fun _ => some 0) (fun _ => some 1) [97, 98, 99] = Except.ok r ∧
        r.calls = [] ∧ r.ret = none ∧
        main_load (fun _ => some 0) (fun _ => some 1) [97, 98, 99] = Load.exit (-1) := by
  have hc : CString [97, 98, 99] := by
    unfold CString
    decide
  obtain ⟨r, hr, _, _, h3, _⟩ := read_model_by_suffix (fun _ => some 0) (fun _ => some 1)
    [97, 98, 99] hc (by decide)
  exact ⟨hc, by decide, r, hr, h3 (by decide) (by decide)⟩

/-- The file name "X.ObJ" goes to `read_obj_file`, and "m.STL" to
`read_stl_file`. -/
theorem read_model_mixed_case {M : Type} (ro rs : List Nat → Option M) :
    snis_read_model ro rs [88, 46, 79, 98, 74] = Except.ok
        { positions := [2], calls := [ReaderCall.read_obj_file [88, 46, 79, 98, 74]],
          printed := none, ret := ro [88, 46, 79, 98, 74] } ∧
      snis_read_model ro rs [109, 46, 83, 84, 76] = Except.ok
        { positions := [2, 2], calls := [ReaderCall.read_stl_file [109, 46, 83, 84, 76]],
          printed := none, ret := rs [109, 46, 83, 84, 76] } :=
  ⟨rfl, rfl⟩

/-- C10: `snis_read_model` forms every string at a position within
`0..l` exactly when `l ≥ 3` and the last three characters are "obj" or "stl"
ignoring case or `l ≥ 4`; and a position outside `0..l` that it uses is
`l - 3` or `l - 4`. -/
theorem read_model_in_bounds_iff {M : Type} (ro rs : List Nat → Option M) (f : List Nat)
    (hf : CString f) :
    ((∃ r, snis_read_model ro rs f = Except.ok r ∧
          ∀ i ∈ r.positions, 0 ≤ i ∧ i ≤ (f.length : Int)) ↔
        3 ≤ f.length ∧ (suffix_is f str_obj ∨ suffix_is f str_stl ∨ 4 ≤ f.length)) ∧
      (∀ i, snis_read_model ro rs f = Except.error i →
        (i = (f.length : Int) - 3 ∨ i = (f.length : Int) - 4) ∧
          ¬ (0 ≤ i ∧ i ≤ (f.length : Int))) ∧
      (∀ r, snis_read_model ro rs f = Except.ok r →
        ∀ i ∈ r.positions, i = (f.length : Int) - 3 ∨ i = (f.length : Int) - 4) := by
  by_cases h3 : 3 ≤ f.length
  · obtain ⟨d1, d2, d3⟩ := read_model_dispatch ro rs f hf h3
    by_cases ho : suffix_is f str_obj
    · have e := d1 ho
      refine ⟨⟨fun _ => ⟨h3, Or.inl ho⟩, fun _ => ⟨_, e, ?_⟩⟩, ?_, ?_⟩
      · intro i hi
        simp only [List.mem_singleton] at hi
        omega
      · intro i hi
        rw [e] at hi
        cases hi
      · intro r hr i hi
        rw [e] at hr
        cases hr
        simp only [List.mem_singleton] at hi
        exact Or.inl hi
    · by_cases hs : suffix_is f str_stl
      · have e := d2 ho hs
        refine ⟨⟨fun _ => ⟨h3, Or.inr (Or.inl hs)⟩, fun _ => ⟨_, e, ?_⟩⟩, ?_, ?_⟩
        · intro i hi
          simp only [List.mem_cons, List.mem_singleton, List.not_mem_nil, or_false] at hi
          omega
        · intro i hi
          rw [e] at hi
          cases hi
        · intro r hr i hi
          rw [e] at hr
          cases hr
          simp only [List.mem_cons, List.mem_singleton, List.not_mem_nil, or_false] at hi
          omega
      · have e := (d3 ho hs).1
        refine ⟨⟨?_, ?_⟩, ?_, ?_⟩
        · rintro ⟨r, hr, hpos⟩
          rw [e] at hr
          cases hr
          have h4 := hpos ((f.length : Int) - 4) (by simp)
          exact ⟨h3, Or.inr (Or.inr (by omega))⟩
        · rintro ⟨_, h | h | h⟩
          · exact absurd h ho
          · exact absurd h hs
          · refine ⟨_, e, ?_⟩
            intro i hi
            simp only [List.mem_cons, List.mem_singleton, List.not_mem_nil, or_false] at hi
            omega
        · intro i hi
          rw [e] at hi
          cases hi
        · intro r hr i hi
          rw [e] at hr
          cases hr
          simp only [List.mem_cons, List.mem_singleton, List.not_mem_nil, or_false] at hi
          omega
  · have e : snis_read_model ro rs f = Except.error ((f.length : Int) - 3) := by
      simp only [snis_read_model, cstr_at_short f h3]
    refine ⟨⟨?_, ?_⟩, ?_, ?_⟩
    · rintro ⟨r, hr, _⟩
      rw [e] at hr
      cases hr
    · rintro ⟨h, _⟩
      exact absurd h h3
    · intro i hi
      rw [e] at hi
      cases hi
      omega
    · intro r hr
      rw [e] at hr
      cases hr

/-- The file name "a.obj" is a C string, and `snis_read_model` forms its
only string at position 2. -/
theorem read_model_in_bounds_iff_witness :
    CString [97, 46, 111, 98, 106] ∧
      ∃ r, snis_read_model (fun _ => some 0) (fun _ => some 1) [97, 46, 111, 98, 106]
          = Except.ok r ∧
        ∀ i ∈ r.positions, 0 ≤ i ∧ i ≤ (([97, 46, 111, 98, 106] : List Nat).length : Int) := by
  have hc : CString [97, 46, 111, 98, 106] := by
    unfold CString
    decide
  exact ⟨hc, ((read_model_in_bounds_iff (fun _ => some 0) (fun _ => some 1)
    [97, 46, 111, 98, 106] hc).1).mpr ⟨by decide, Or.inl (by decide)⟩⟩

/-! ## Mouse history and drag -/

/-- C9: in every state reachable from the initial state `-1 ≤ last ≤ 4`,
and `last = lastcount - 1` while a drag is active with `lastcount < 5`; so
the index written while the history fills and the index read and written
once it is full both lie in 0..4. -/
theorem mouse_history_in_bounds {F Q : Type} (E : Ext F Q) (s : State F Q)
    (h : Reachable E s) :
    ((initial E).last = -1 ∧ (initial E).lastcount = 0 ∧ (initial E).isDragging = 0) ∧
      (-1 ≤ s.last ∧ s.last ≤ 4) ∧
      (s.isDragging ≠ 0 → s.lastcount < 5 → s.last = s.lastcount - 1) ∧
      (0 ≤ record_index s ∧ record_index s ≤ 4) ∧
      (0 ≤ oldest_index s ∧ oldest_index s ≤ 4) := by
  have hi := inv_reachable E s h
  have hlo := hi.last_lo
  have hhi := hi.last_hi
  have hm : Int.tmod (s.last + 1) 5 = (s.last + 1) % 5 := tmod_five_eq _ (by omega)
  refine ⟨⟨rfl, rfl, rfl⟩, ⟨hlo, hhi⟩, hi.filling, ?_, ?_⟩
  · simp only [record_index, MOUSE_HISTORY]
    omega
  · simp only [oldest_index, MOUSE_HISTORY]
    omega

theorem rotate_step_of_inv {F Q : Type} (E : Ext F Q) (s : State F Q) (x y : Int)
    (hi : Inv s) (hd : s.isDragging ≠ 0) (hc : MOUSE_HISTORY ≤ s.lastcount) :
    (s.isDraggingLight ≠ 0 →
        (main_da_motion_notify E x y s).1.light_orientation
          = E.quat_mul
              (drag_rotation E (normalise E x s.real_screen_width)
                (normalise E y s.real_screen_height)
                (s.lastx (oldest_index s)) (s.lasty (oldest_index s)))
              s.light_orientation ∧
        (main_da_motion_notify E x y s).1.lobby_orientation = s.lobby_orientation) ∧
      (s.isDraggingLight = 0 →
        (main_da_motion_notify E x y s).1.lobby_orientation
          = E.quat_mul
              (drag_rotation E (normalise E x s.real_screen_width)
                (normalise E y s.real_screen_height)
                (s.lastx (oldest_index s)) (s.lasty (oldest_index s)))
              s.lobby_orientation ∧
        (main_da_motion_notify E x y s).1.light_orientation = s.light_orientation) := by
  have hnc : ¬ s.lastcount < MOUSE_HISTORY := not_lt.mpr hc
  constructor
  · intro hl
    simp only [main_da_motion_notify, if_neg hd, if_neg hnc, if_pos hl, drag_rotation,
      drag_v1, drag_v2, hi.light_eq, and_self]
  · intro hl
    have hl2 : ¬ s.isDraggingLight ≠ 0 := fun h => h hl
    simp only [main_da_motion_notify, if_neg hd, if_neg hnc, if_neg hl2, drag_rotation,
      drag_v1, drag_v2, hi.lobby_eq, and_self]

/-- C1: in a reachable state with a drag active and a full history, a
motion event computes `drag_rotation` from its normalised position and the
stored position at `oldest_index`, and replaces the selected orientation (the
light when `isDraggingLight ≠ 0`, the model otherwise) by `quat_mul` of the
rotation and its previous value, leaving the other orientation unchanged. -/
theorem drag_rotate_step {F Q : Type} (E : Ext F Q) (s : State F Q) (x y : Int)
    (hr : Reachable E s) (hd : s.isDragging ≠ 0) (hc : MOUSE_HISTORY ≤ s.lastcount) :
    (s.isDraggingLight ≠ 0 →
        (main_da_motion_notify E x y s).1.light_orientation
          = E.quat_mul
              (drag_rotation E (normalise E x s.real_screen_width)
                (normalise E y s.real_screen_height)
                (s.lastx (oldest_index s)) (s.lasty (oldest_index s)))
              s.light_orientation ∧
        (main_da_motion_notify E x y s).1.lobby_orientation = s.lobby_orientation) ∧
      (s.isDraggingLight = 0 →
        (main_da_motion_notify E x y s).1.lobby_orientation
          = E.quat_mul
              (drag_rotation E (normalise E x s.real_screen_width)
                (normalise E y s.real_screen_height)
                (s.lastx (oldest_index s)) (s.lasty (oldest_index s)))
              s.lobby_orientation ∧
        (main_da_motion_notify E x y s).1.light_orientation = s.light_orientation) :=
  rotate_step_of_inv E s x y (inv_reachable E s hr) hd hc

/-- The state after `sample_drag` is reachable, has a drag of the model
active and a full history; the sixth motion event composes its rotation with
the model orientation. -/
theorem drag_rotate_step_witness :
    Reachable exactExt (after_events exactExt sample_drag) ∧
      (after_events exactExt sample_drag).isDragging ≠ 0 ∧
      MOUSE_HISTORY ≤ (after_events exactExt sample_drag).lastcount ∧
      (main_da_motion_notify exactExt 450 300
          (after_events exactExt sample_drag)).1.lobby_orientation
        = exactExt.quat_mul
            (drag_rotation exactExt
              (normalise exactExt 450 (after_events exactExt sample_drag).real_screen_width)
              (normalise exactExt 300 (after_events exactExt sample_drag).real_screen_height)
              ((after_events exactExt sample_drag).lastx
                (oldest_index (after_events exactExt sample_drag)))
              ((after_events exactExt sample_drag).lasty
                (oldest_index (after_events exactExt sample_drag))))
            (after_events exactExt sample_drag).lobby_orientation :=
  ⟨⟨sample_drag, rfl⟩, by decide, by decide,
    ((drag_rotate_step exactExt (after_events exactExt sample_drag) 450 300
      ⟨sample_drag, rfl⟩ (by decide) (by decide)).2 (by decide)).1⟩

/-- The state after `sample_drag` is reachable; there `last = 4`. -/
theorem mouse_history_in_bounds_witness :
    Reachable exactExt (after_events exactExt sample_drag) ∧
      (after_events exactExt sample_drag).last = 4 ∧
      0 ≤ oldest_index (after_events exactExt sample_drag) :=
  ⟨⟨sample_drag, rfl⟩, by decide,
    (mouse_history_in_bounds exactExt (after_events exactExt sample_drag)
      ⟨sample_drag, rfl⟩).2.2.2.2.1⟩

theorem process_events_snoc {F Q : Type} (E : Ext F Q) (a : Event) (l : List Event) :
    ∀ s s2 : State F Q, process_events E (l ++ [a]) s = Except.ok s2 →
      ∃ s1, process_events E l s = Except.ok s1 ∧ process_event E a s1 = Except.ok s2 := by
  induction l with
  | nil =>
    intro s s2 h
    simp only [List.nil_append, process_events] at h
    cases hp : process_event E a s with
    | error c => rw [hp] at h; cases h
    | ok s1 =>
      rw [hp] at h
      cases h
      exact ⟨s, rfl, hp⟩
  | cons e es ih =>
    intro s s2 h
    simp only [List.cons_append, process_events] at h
    cases hp : process_event E e s with
    | error c => rw [hp] at h; cases h
    | ok s1 =>
      rw [hp] at h
      obtain ⟨s3, h3, h4⟩ := ih s1 s2 h
      refine ⟨s3, ?_, h4⟩
      simp only [process_events, hp]
      exact h3

theorem release_flags {F Q : Type} (E : Ext F Q) (b x y : Int) (s : State F Q)
    (hb : b ≠ 3) :
    (main_da_button_release E b x y s).1.isDragging = s.isDragging ∧
      (main_da_button_release E b x y s).1.isDraggingLight = s.isDraggingLight := by
  unfold main_da_button_release
  split_ifs <;> simp_all [main_da_scroll]

theorem release_right_ends {F Q : Type} (E : Ext F Q) (x y : Int) (s : State F Q) :
    (main_da_button_release E 3 x y s).1.isDragging = 0 := by
  unfold main_da_button_release
  by_cases hd : s.isDragging = 0
  · simp [hd]
  · simp [hd]

theorem motion_flags {F Q : Type} (E : Ext F Q) (x y : Int) (s : State F Q) :
    (main_da_motion_notify E x y s).1.isDragging = s.isDragging ∧
      (main_da_motion_notify E x y s).1.isDraggingLight = s.isDraggingLight := by
  unfold main_da_motion_notify
  split_ifs <;> exact ⟨rfl, rfl⟩

theorem key_flags {F Q : Type} (sym : SDLKey) (s s1 : State F Q)
    (h : handle_key_down sym s = Except.ok s1) :
    s1.isDragging = s.isDragging ∧ s1.isDraggingLight = s.isDraggingLight := by
  cases sym <;> simp [handle_key_down] at h <;> subst h <;> exact ⟨rfl, rfl⟩

theorem event_flags {F Q : Type} (E : Ext F Q) (e : Event) (s s1 : State F Q)
    (hp : right_press e = none) (hrel : right_release e = false)
    (h : process_event E e s = Except.ok s1) :
    s1.isDragging = s.isDragging ∧ s1.isDraggingLight = s.isDraggingLight := by
  cases e with
  | keydown sym => exact key_flags sym s s1 h
  | quit => simp [process_event] at h
  | videoresize w ht =>
    simp only [process_event] at h
    cases h
    exact ⟨rfl, rfl⟩
  | mousebuttondown b x y m =>
    have hb : sdl_button_to_int b ≠ 3 := by
      intro hb
      simp [right_press, hb] at hp
    simp only [process_event] at h
    split_ifs at h <;> cases h
    · simp [main_da_button_press, hb]
    · exact ⟨rfl, rfl⟩
  | mousebuttonup b x y =>
    have hb : sdl_button_to_int b ≠ 3 := by
      intro hb
      simp [right_release, hb] at hrel
    simp only [process_event] at h
    split_ifs at h <;> cases h
    · exact release_flags E _ x y s hb
    · exact ⟨rfl, rfl⟩
  | mousemotion x y =>
    simp only [process_event] at h
    cases h
    exact motion_flags E x y s
  | other =>
    simp only [process_event] at h
    cases h
    exact ⟨rfl, rfl⟩

theorem drag_has_open_press {F Q : Type} (E : Ext F Q) (evs : List Event) :
    ∀ s : State F Q, process_events E evs (initial E) = Except.ok s → s.isDragging ≠ 0 →
      ∃ pre e m post, evs = pre ++ e :: post ∧ right_press e = some m ∧
        (∀ a ∈ post, right_press a = none ∧ right_release a = false) ∧
        s.isDraggingLight = ((m &&& (KMOD_LCTRL ||| KMOD_RCTRL) : Nat) : Int) := by
  induction evs using List.reverseRecOn with
  | nil =>
    intro s h hd
    simp only [process_events] at h
    cases h
    exact absurd rfl hd
  | append_singleton l a ih =>
    intro s h hd
    obtain ⟨s1, h1, h2⟩ := process_events_snoc E a l _ _ h
    cases hp : right_press a with
    | some m =>
      refine ⟨l, a, m, [], rfl, hp, by simp, ?_⟩
      cases a with
      | mousebuttondown b x y m1 =>
        have hb : sdl_button_to_int b = 3 := by
          by_contra hb
          simp [right_press, hb] at hp
        simp only [right_press, hb, if_true, Option.some.injEq] at hp
        subst hp
        simp only [process_event, hb] at h2
        simp at h2
        subst h2
        simp [main_da_button_press]
      | _ => simp [right_press] at hp
    | none =>
      cases hrel : right_release a with
      | true =>
        cases a with
        | mousebuttonup b x y =>
          have hb : sdl_button_to_int b = 3 := by
            simpa [right_release] using hrel
          simp only [process_event, hb] at h2
          simp at h2
          subst h2
          exact absurd (release_right_ends E x y s1) hd
        | _ => simp [right_release] at hrel
      | false =>
        obtain ⟨f1, f2⟩ := event_flags E a s1 s hp hrel h2
        obtain ⟨pre, e, m, post, he, hpe, hpost, hl⟩ := ih s1 h1 (by rw [← f1]; exact hd)
        refine ⟨pre, e, m, post ++ [a], ?_, hpe, ?_, ?_⟩
        · rw [he]; simp
        · intro c hc
          rcases List.mem_append.mp hc with hc | hc
          · exact hpost c hc
          · simp only [List.mem_singleton] at hc
            subst hc
            exact ⟨hp, hrel⟩
        · rw [f2]; exact hl

theorem motion_changes {F Q : Type} (E : Ext F Q) (x y : Int) (s : State F Q) :
    ((main_da_motion_notify E x y s).1.lobby_orientation ≠ s.lobby_orientation →
        s.isDragging ≠ 0 ∧ s.isDraggingLight = 0) ∧
      ((main_da_motion_notify E x y s).1.light_orientation ≠ s.light_orientation →
        s.isDragging ≠ 0 ∧ s.isDraggingLight ≠ 0) := by
  unfold main_da_motion_notify
  split_ifs with h1 h2 h3 <;> simp_all

/-- C2: after any sequence of events from the initial state, a motion
event changes `lobby_orientation` only if the events contain a button-3 press
with no control key held that is followed by no button-3 press and no
button-3 release, and changes `light_orientation` only if they contain such a
press with a control key held. -/
theorem drag_only_in_right_button_drag {F Q : Type} (E : Ext F Q) (evs : List Event)
    (s : State F Q) (x y : Int) (h : process_events E evs (initial E) = Except.ok s) :
    ((main_da_motion_notify E x y s).1.lobby_orientation ≠ s.lobby_orientation →
        ∃ pre e m post, evs = pre ++ e :: post ∧ right_press e = some m ∧
          (∀ a ∈ post, right_press a = none ∧ right_release a = false) ∧
          m &&& (KMOD_LCTRL ||| KMOD_RCTRL) = 0) ∧
      ((main_da_motion_notify E x y s).1.light_orientation ≠ s.light_orientation →
        ∃ pre e m post, evs = pre ++ e :: post ∧ right_press e = some m ∧
          (∀ a ∈ post, right_press a = none ∧ right_release a = false) ∧
          m &&& (KMOD_LCTRL ||| KMOD_RCTRL) ≠ 0) := by
  obtain ⟨c1, c2⟩ := motion_changes E x y s
  constructor
  · intro hc
    obtain ⟨hd, hl⟩ := c1 hc
    obtain ⟨pre, e, m, post, he, hpe, hpost, hm⟩ := drag_has_open_press E evs s h hd
    refine ⟨pre, e, m, post, he, hpe, hpost, ?_⟩
    rw [hl] at hm
    exact_mod_cast hm.symm
  · intro hc
    obtain ⟨hd, hl⟩ := c2 hc
    obtain ⟨pre, e, m, post, he, hpe, hpost, hm⟩ := drag_has_open_press E evs s h hd
    refine ⟨pre, e, m, post, he, hpe, hpost, ?_⟩
    intro h0
    rw [h0] at hm
    exact hl hm

/-- The button-3 press of `sample_drag` has no control key held, and the
motion event after it changes the model orientation. -/
theorem drag_only_in_right_button_drag_witness :
    process_events exactExt sample_drag (initial exactExt)
        = Except.ok (after_events exactExt sample_drag) ∧
      ∃ pre e m post, sample_drag = pre ++ e :: post ∧ right_press e = some m ∧
        (∀ a ∈ post, right_press a = none ∧ right_release a = false) ∧
        m &&& (KMOD_LCTRL ||| KMOD_RCTRL) = 0 :=
  ⟨rfl, (drag_only_in_right_button_drag exactExt sample_drag
    (after_events exactExt sample_drag) 450 300 rfl).1 (by decide)⟩

theorem window_slot {F Q : Type} (P : List (F × F)) (s : State F Q) (hw : Window P s) :
    Int.tmod (s.last + 1) 5 = ((P.length % 5 : Nat) : Int) := by
  by_cases h0 : P.length = 0
  · rw [hw.last_empty h0, h0]
    decide
  · have hl := hw.last_pos (by omega)
    rw [tmod_five_eq _ (by omega)]
    omega

theorem stored_step {F : Type} (P : List (F × F)) (fx fy : Int → F) (c : F × F)
    (hst : ∀ j : Nat, j < P.length → P.length ≤ j + 5 →
      P[j]? = some (fx ((j % 5 : Nat) : Int), fy ((j % 5 : Nat) : Int))) :
    ∀ j : Nat, j < (P ++ [c]).length → (P ++ [c]).length ≤ j + 5 →
      (P ++ [c])[j]? =
        some (Function.update fx ((P.length % 5 : Nat) : Int) c.1 ((j % 5 : Nat) : Int),
          Function.update fy ((P.length % 5 : Nat) : Int) c.2 ((j % 5 : Nat) : Int)) := by
  intro j hj1 hj2
  simp only [List.length_append, List.length_singleton] at hj1 hj2
  rw [List.getElem?_append]
  by_cases hlt : j < P.length
  · rw [if_pos hlt, hst j hlt (by omega)]
    have hne : ((j % 5 : Nat) : Int) ≠ ((P.length % 5 : Nat) : Int) := by omega
    rw [Function.update_noteq hne, Function.update_noteq hne]
  · rw [if_neg hlt]
    have hj : j = P.length := by omega
    subst hj
    simp

theorem window_press {F Q : Type} (x y : Int) (m : Nat) (s : State F Q) :
    Window ([] : List (F × F)) (main_da_button_press 3 x y m s).1 := by
  constructor <;> simp [main_da_button_press]

theorem window_motion {F Q : Type} (E : Ext F Q) (x y : Int) (P : List (F × F))
    (s : State F Q) (hw : Window P s) :
    Window (P ++ [(normalise E x s.real_screen_width, normalise E y s.real_screen_height)])
      (main_da_motion_notify E x y s).1 := by
  have hslot := window_slot P s hw
  have hd : ¬ s.isDragging = 0 := by rw [hw.dragging]; decide
  have hcount := hw.count
  have hstored := stored_step P s.lastx s.lasty
    (normalise E x s.real_screen_width, normalise E y s.real_screen_height) hw.stored
  have hlen : (P ++ [(normalise E x s.real_screen_width,
      normalise E y s.real_screen_height)]).length = P.length + 1 := by simp
  have hdrag := hw.dragging
  unfold main_da_motion_notify
  rw [if_neg hd]
  by_cases hc : s.lastcount < MOUSE_HISTORY
  · rw [if_pos hc]
    have hc5 : s.lastcount < 5 := hc
    constructor
    · exact hdrag
    · show s.lastcount + 1 = _
      rw [hlen]; push_cast; omega
    · intro h0; rw [hlen] at h0; omega
    · intro _
      show s.last + 1 = _
      rw [hlen]
      by_cases h0 : P.length = 0
      · rw [hw.last_empty h0, h0]; decide
      · have := hw.last_pos (by omega)
        omega
    · show ∀ j : Nat, _ → _ → _ = some (Function.update s.lastx (record_index s) _ _,
        Function.update s.lasty (record_index s) _ _)
      simp only [record_index, MOUSE_HISTORY]
      rw [hslot]
      exact hstored
  · rw [if_neg hc]
    have key : Window (P ++ [(normalise E x s.real_screen_width,
          normalise E y s.real_screen_height)])
        ({ s with
            lastcount := s.lastcount + 1
            last := oldest_index s
            lastx := Function.update s.lastx (oldest_index s)
              (normalise E x s.real_screen_width)
            lasty := Function.update s.lasty (oldest_index s)
              (normalise E y s.real_screen_height) } : State F Q) := by
      constructor
      · exact hdrag
      · show s.lastcount + 1 = _
        rw [hlen]; push_cast; omega
      · intro h0; rw [hlen] at h0; omega
      · intro _
        show oldest_index s = _
        simp only [oldest_index, MOUSE_HISTORY]
        rw [hslot, hlen]
        simp
      · show ∀ j : Nat, _ → _ → _ = some (Function.update s.lastx (oldest_index s) _ _,
          Function.update s.lasty (oldest_index s) _ _)
        simp only [oldest_index, MOUSE_HISTORY]
        rw [hslot]
        exact hstored
    obtain ⟨k1, k2, k3, k4, k5⟩ := key
    by_cases hl : s.isDraggingLight ≠ 0
    · rw [if_pos hl]
      exact ⟨k1, k2, k3, k4, k5⟩
    · rw [if_neg hl]
      exact ⟨k1, k2, k3, k4, k5⟩

theorem quiet_step {F Q : Type} (E : Ext F Q) (e : Event) (P : List (F × F))
    (s : State F Q) (hq : drag_quiet e) (hw : Window P s) :
    ∃ s1, process_event E e s = Except.ok s1 ∧
      Window (P ++ motion_positions E s.real_screen_width s.real_screen_height [e]) s1 ∧
      s1.isDraggingLight = s.isDraggingLight ∧
      ∀ es, motion_positions E s.real_screen_width s.real_screen_height (e :: es)
        = motion_positions E s.real_screen_width s.real_screen_height [e]
          ++ motion_positions E s1.real_screen_width s1.real_screen_height es := by
  obtain ⟨w1, w2, w3, w4, w5⟩ := hw
  cases e with
  | keydown sym =>
    cases sym with
    | ESCAPE => exact absurd rfl hq
    | F1 =>
      exact ⟨_, rfl, by simpa [motion_positions] using ⟨w1, w2, w3, w4, w5⟩, rfl,
        fun es => by simp [motion_positions]⟩
    | F11 =>
      exact ⟨_, rfl, by simpa [motion_positions] using ⟨w1, w2, w3, w4, w5⟩, rfl,
        fun es => by simp [motion_positions]⟩
    | PAUSE =>
      exact ⟨_, rfl, by simpa [motion_positions] using ⟨w1, w2, w3, w4, w5⟩, rfl,
        fun es => by simp [motion_positions]⟩
    | other n =>
      exact ⟨_, rfl, by simpa [motion_positions] using ⟨w1, w2, w3, w4, w5⟩, rfl,
        fun es => by simp [motion_positions]⟩
  | quit => exact absurd hq id
  | videoresize w h =>
    exact ⟨_, rfl, by simpa [motion_positions] using ⟨w1, w2, w3, w4, w5⟩, rfl,
      fun es => by simp [motion_positions]⟩
  | mousebuttondown b x y m => exact absurd hq id
  | mousebuttonup b x y =>
    have hq2 : sdl_button_to_int b = 4 ∨ sdl_button_to_int b = 5 := hq
    have hpos : sdl_button_to_int b > 0 := by omega
    refine ⟨(main_da_button_release E (sdl_button_to_int b) x y s).1, ?_, ?_, ?_, ?_⟩
    · simp only [process_event, if_pos hpos]
    · rcases hq2 with h4 | h5
      · rw [h4]
        simpa [motion_positions, main_da_button_release, main_da_scroll]
          using ⟨w1, w2, w3, w4, w5⟩
      · rw [h5]
        simpa [motion_positions, main_da_button_release, main_da_scroll]
          using ⟨w1, w2, w3, w4, w5⟩
    · exact (release_flags E _ x y s (by omega)).2
    · intro es
      rcases hq2 with h4 | h5
      · rw [h4]; simp [motion_positions, main_da_button_release, main_da_scroll]
      · rw [h5]; simp [motion_positions, main_da_button_release, main_da_scroll]
  | mousemotion x y =>
    refine ⟨(main_da_motion_notify E x y s).1, rfl, ?_, (motion_flags E x y s).2, ?_⟩
    · exact window_motion E x y P s ⟨w1, w2, w3, w4, w5⟩
    · intro es
      have hwd : (main_da_motion_notify E x y s).1.real_screen_width = s.real_screen_width
          ∧ (main_da_motion_notify E x y s).1.real_screen_height = s.real_screen_height := by
        unfold main_da_motion_notify
        split_ifs <;> exact ⟨rfl, rfl⟩
      rw [hwd.1, hwd.2]
      simp [motion_positions]
  | other =>
    exact ⟨_, rfl, by simpa [motion_positions] using ⟨w1, w2, w3, w4, w5⟩, rfl,
      fun es => by simp [motion_positions]⟩

theorem window_events {F Q : Type} (E : Ext F Q) (evs : List Event) :
    ∀ (P : List (F × F)) (s : State F Q), Window P s → (∀ e ∈ evs, drag_quiet e) →
      ∃ s1, process_events E evs s = Except.ok s1 ∧
        Window (P ++ motion_positions E s.real_screen_width s.real_screen_height evs) s1 ∧
        s1.isDraggingLight = s.isDraggingLight := by
  induction evs with
  | nil =>
    intro P s hw _
    exact ⟨s, rfl, by simpa [motion_positions] using hw, rfl⟩
  | cons e es ih =>
    intro P s hw hq
    obtain ⟨s1, h1, hw1, hl1, hm1⟩ := quiet_step E e P s (hq e (by simp)) hw
    obtain ⟨s2, h2, hw2, hl2⟩ := ih _ s1 hw1 (fun a ha => hq a (by simp [ha]))
    refine ⟨s2, ?_, ?_, ?_⟩
    · simp only [process_events, h1]
      exact h2
    · rw [hm1 es, ← List.append_assoc]
      exact hw2
    · rw [hl2, hl1]

/-- C7: after a button-3 press in a reachable state and events `evs` none
of which is a button press, a non-wheel button release or an exit, let `P` be
the normalised positions of the motion events of `evs`. The next motion event
is number `P.length + 1` of the drag. While `P.length < 5` it changes neither
orientation and records its normalised position in slot `P.length`. Once
`5 ≤ P.length` the stored position `(lx, ly)` it reads is `P[P.length - 5]`,
the position of the motion event five before it, and the selected orientation
is composed with `drag_rotation` of the current position and `(lx, ly)`. -/
theorem drag_five_event_window {F Q : Type} (E : Ext F Q) (s0 : State F Q)
    (b x0 y0 : Int) (m : Nat) (evs : List Event) (x y : Int)
    (hr : Reachable E s0) (hb : sdl_button_to_int b = 3)
    (hq : ∀ e ∈ evs, drag_quiet e) :
    ∃ s, process_events E (Event.mousebuttondown b x0 y0 m :: evs) s0 = Except.ok s ∧
      ∃ P, P = motion_positions E s0.real_screen_width s0.real_screen_height evs ∧
        (P.length < 5 →
          (main_da_motion_notify E x y s).1.lobby_orientation = s.lobby_orientation ∧
          (main_da_motion_notify E x y s).1.light_orientation = s.light_orientation ∧
          (main_da_motion_notify E x y s).1.last = (P.length : Int) ∧
          (main_da_motion_notify E x y s).1.lastx (P.length : Int)
            = normalise E x s.real_screen_width ∧
          (main_da_motion_notify E x y s).1.lasty (P.length : Int)
            = normalise E y s.real_screen_height) ∧
        (5 ≤ P.length →
          ∃ lx ly, P[P.length - 5]? = some (lx, ly) ∧
            s.lastx (oldest_index s) = lx ∧ s.lasty (oldest_index s) = ly ∧
            (s.isDraggingLight ≠ 0 →
              (main_da_motion_notify E x y s).1.light_orientation
                = E.quat_mul
                    (drag_rotation E (normalise E x s.real_screen_width)
                      (normalise E y s.real_screen_height) lx ly)
                    s.light_orientation ∧
              (main_da_motion_notify E x y s).1.lobby_orientation = s.lobby_orientation) ∧
            (s.isDraggingLight = 0 →
              (main_da_motion_notify E x y s).1.lobby_orientation
                = E.quat_mul
                    (drag_rotation E (normalise E x s.real_screen_width)
                      (normalise E y s.real_screen_height) lx ly)
                    s.lobby_orientation ∧
              (main_da_motion_notify E x y s).1.light_orientation
                = s.light_orientation)) := by
  have hpress : process_event E (Event.mousebuttondown b x0 y0 m) s0
      = Except.ok (main_da_button_press 3 x0 y0 m s0).1 := by
    simp [process_event, hb]
  have hw0 : Window ([] : List (F × F)) (main_da_button_press 3 x0 y0 m s0).1 :=
    window_press x0 y0 m s0
  obtain ⟨s, hs, hw, _⟩ := window_events E evs [] _ hw0 hq
  have hrun : process_events E (Event.mousebuttondown b x0 y0 m :: evs) s0 = Except.ok s := by
    simp only [process_events, hpress]
    exact hs
  have hsize : (main_da_button_press 3 x0 y0 m s0).1.real_screen_width = s0.real_screen_width
      ∧ (main_da_button_press 3 x0 y0 m s0).1.real_screen_height
        = s0.real_screen_height := by
    simp [main_da_button_press]
  rw [hsize.1, hsize.2, List.nil_append] at hw
  have hinv : Inv s := inv_events E _ s0 s (inv_reachable E s0 hr) hrun
  have hd : s.isDragging ≠ 0 := by rw [hw.dragging]; decide
  have hslot := window_slot _ s hw
  refine ⟨s, hrun, _, rfl, ?_, ?_⟩
  · intro hlt
    have hw1 := window_motion E x y _ s hw
    have hc : s.lastcount < MOUSE_HISTORY := by
      rw [hw.count]
      show ((motion_positions E s0.real_screen_width s0.real_screen_height evs).length : Int)
        < 5
      omega
    have hidx : record_index s
        = ((motion_positions E s0.real_screen_width s0.real_screen_height evs).length
            : Int) := by
      simp only [record_index, MOUSE_HISTORY]
      rw [hslot]
      omega
    have hlast : s.last + 1
        = ((motion_positions E s0.real_screen_width s0.real_screen_height evs).length
            : Int) := by
      have h5 := tmod_five_eq (s.last + 1) (by have := hinv.last_lo; omega)
      have := hinv.last_hi
      have := hinv.last_lo
      have := hinv.filling hd (by
        have : s.lastcount < 5 := hc
        exact this)
      rw [hw.count] at this
      omega
    simp only [main_da_motion_notify, if_neg hd, if_pos hc, hidx, Function.update_same,
      hlast, and_self]
  · intro hge
    have hc : MOUSE_HISTORY ≤ s.lastcount := by
      rw [hw.count]
      show (5 : Int)
        ≤ ((motion_positions E s0.real_screen_width s0.real_screen_height evs).length : Int)
      omega
    have hst := hw.stored
      ((motion_positions E s0.real_screen_width s0.real_screen_height evs).length - 5)
      (by omega) (by omega)
    have hidx : oldest_index s
        = ((((motion_positions E s0.real_screen_width s0.real_screen_height evs).length - 5)
            % 5 : Nat) : Int) := by
      simp only [oldest_index, MOUSE_HISTORY]
      rw [hslot]
      omega
    rw [← hidx] at hst
    exact ⟨_, _, hst, rfl, rfl, rotate_step_of_inv E s x y hinv hd hc⟩

/-- The initial state is reachable, button 3 is the right button and the
motion events of `sample_motions` are quiet; after the press and these five
events the stored position the sixth motion event reads is the position of
the first one. -/
theorem drag_five_event_window_witness :
    Reachable exactExt (initial exactExt) ∧ sdl_button_to_int 3 = 3 ∧
      (∀ e ∈ sample_motions, drag_quiet e) ∧
      ∃ s, process_events exactExt sample_drag (initial exactExt) = Except.ok s ∧
        s.lastx (oldest_index s) = normalise exactExt 400 800 ∧
        s.lasty (oldest_index s) = normalise exactExt 300 600 := by
  have hr : Reachable exactExt (initial exactExt) := ⟨[], rfl⟩
  have hq : ∀ e ∈ sample_motions, drag_quiet e := by
    intro e he
    simp only [sample_motions, List.mem_cons, List.mem_singleton, List.not_mem_nil,
      or_false] at he
    rcases he with rfl | rfl | rfl | rfl | rfl <;> exact trivial
  obtain ⟨s, hs, P, hP, _, h2⟩ := drag_five_event_window exactExt (initial exactExt) 3 400 300 0
    sample_motions 450 300 hr (by decide) hq
  subst hP
  obtain ⟨lx, ly, hp, hx, hy, _⟩ := h2 (by decide)
  have hfirst : some (lx, ly)
      = some (normalise exactExt 400 800, normalise exactExt 300 600) := hp.symm.trans rfl
  simp only [Option.some.injEq, Prod.mk.injEq] at hfirst
  exact ⟨hr, by decide, hq, s, hs, hx.trans hfirst.1, hy.trans hfirst.2⟩

end MeshViewer
